import Mathlib

/-!
Shallow embedding of the game-state engine of Fragmented Squares
(`FragmentedSquaresGame` in `src/Code.py`).

Modelling conventions:
* A square coordinate `(row, col)` is a pair of integers.
* The Python dict `self.edges`, mapping an edge tuple to a record of
  color and exists flag, is embedded as three state fields:
  `edges` (the dict's key set), `edgeColor` (the color entry, a total
  function whose values matter only on `edges`), and `removed` (the set of
  keys whose exists entry is `False`).
* `random.choice([RED, BLUE])` in `_initialize_edges` is abstracted as a
  color-assignment function `col : Edge → Color` supplied to `reset`;
  every theorem quantifies over it.
* `make_move` returns the pair (optional failure reason, next state); the
  Python method mutates `self` and returns `(bool, message)`, with the
  distinct reason strings of lines 177-188 embedded as `MoveReason`.
-/

namespace FS

/-- A square coordinate `(row, col)`. -/
abbrev Coord := Int × Int

/-- Edge orientations, the constants HORIZONTAL and VERTICAL. -/
inductive Orient where
  | H
  | V
deriving DecidableEq, Repr

/-- An edge tuple `((r, c), orientation)`. -/
abbrev Edge := Coord × Orient

/-- The two edge colors `BLUE` and `RED`. -/
inductive Color where
  | Blue
  | Red
deriving DecidableEq, Repr

/-- The two players `LEFT_PLAYER` and `RIGHT_PLAYER`. -/
inductive Player where
  | Left
  | Right
deriving DecidableEq, Repr

/-- The player switch on line 236: `RIGHT_PLAYER if current == LEFT_PLAYER else LEFT_PLAYER`. -/
def otherPlayer : Player → Player
  | Player.Left => Player.Right
  | Player.Right => Player.Left

/-- The color required for the current player, line 182:
`BLUE if self.current_player == LEFT_PLAYER else RED`. -/
def playerColor : Player → Color
  | Player.Left => Color.Blue
  | Player.Right => Color.Red

/-- The distinct failure reasons built in `make_move`, lines 177-188. -/
inductive MoveReason where
  /-- The initial Unknown reason default, never overwritten. -/
  | unknownReason
  /-- Reported as Edge does not exist or already removed. -/
  | edgeMissing
  /-- Reported as Incorrect color (...). -/
  | incorrectColor
  /-- Reported as Edge does not border any active squares. -/
  | noActiveSquares
deriving DecidableEq, Repr

/-- One entry of `self.move_history`, the `move_data` dict of lines 213-223. -/
structure MoveRecord where
  turn : Nat
  player : Player
  edge_removed : Edge
  edge_color : Color
  squares_destroyed : Finset Coord
  active_squares_before : Finset Coord
  active_squares_after : Finset Coord
  game_over_after : Bool
  winner : Option Player
deriving DecidableEq

/-- The engine state: the fields assigned in `__init__` and `reset`. -/
structure FragmentedSquaresGame where
  all_squares_coords : Finset Coord
  active_squares_coords : Finset Coord
  /-- Key set of the `self.edges` dict. -/
  edges : Finset Edge
  /-- The color entry of each `self.edges` value (total; meaningful on `edges`). -/
  edgeColor : Edge → Color
  /-- The keys whose exists entry is `False`. -/
  removed : Finset Edge
  current_player : Player
  winner : Option Player
  last_move_destructions : Nat
  move_history : List MoveRecord

namespace FragmentedSquaresGame

/-- Embeds `get_squares_sharing_edge` (lines 106-118) as a function of the shape:
the up-to-two squares geometrically sharing the edge, intersected with the
originally defined board shape. -/
def squaresSharingEdge (shape : Finset Coord) (e : Edge) : Finset Coord :=
  match e with
  | ((r, c), Orient.H) => ({(r, c), (r + 1, c)} : Finset Coord) ∩ shape
  | ((r, c), Orient.V) => ({(r, c), (r, c + 1)} : Finset Coord) ∩ shape

/-- Method form of `get_squares_sharing_edge`, reading `self.all_squares_coords`. -/
def get_squares_sharing_edge (g : FragmentedSquaresGame) (e : Edge) : Finset Coord :=
  squaresSharingEdge g.all_squares_coords e

/-- The four potential edges collected per square in `_initialize_edges`,
lines 80-89: below, right-of, above (`(r-1, c)` horizontal), and left-of
(`(r, c-1)` vertical). -/
def potentialEdges (shape : Finset Coord) : Finset Edge :=
  shape.biUnion (fun sq =>
    {((sq.1, sq.2), Orient.H), ((sq.1, sq.2), Orient.V),
     ((sq.1 - 1, sq.2), Orient.H), ((sq.1, sq.2 - 1), Orient.V)})

/-- Embeds the edge construction of lines 76-103, minus the color draws: keep the
potential edges whose bordered squares intersect the shape. -/
def initialize_edges (shape : Finset Coord) : Finset Edge :=
  (potentialEdges shape).filter
    (fun e => squaresSharingEdge shape e ∩ shape ≠ ∅)

/-- Embeds `reset` (lines 61-73): active squares back to the full shape, fresh edge
dict with colors from `col`, Left to move, no winner, empty history. -/
def reset (g : FragmentedSquaresGame) (col : Edge → Color) : FragmentedSquaresGame :=
  { all_squares_coords := g.all_squares_coords
    active_squares_coords := g.all_squares_coords
    edges := initialize_edges g.all_squares_coords
    edgeColor := col
    removed := ∅
    current_player := Player.Left
    winner := none
    last_move_destructions := 0
    move_history := [] }

/-- Embeds the constructor of lines 49-59: `None` stands for the `ValueError` raised on an
empty shape; otherwise the state produced by `reset` on the stored shape. -/
def initGame (shape : Finset Coord) (col : Edge → Color) : Option FragmentedSquaresGame :=
  if shape = ∅ then none
  else some (reset
    { all_squares_coords := shape
      active_squares_coords := ∅
      edges := ∅
      edgeColor := col
      removed := ∅
      current_player := Player.Left
      winner := none
      last_move_destructions := 0
      move_history := [] } col)

/-- Embeds `is_valid_move` (lines 130-157): game not over, edge present with its
exists flag true, color owned by the current player, and bordering at least
one active square. -/
def is_valid_move (g : FragmentedSquaresGame) (e : Edge) : Bool :=
  if g.winner.isSome then false
  else if ¬ (e ∈ g.edges ∧ e ∉ g.removed) then false
  else if ¬ ((g.current_player = Player.Left ∧ g.edgeColor e = Color.Blue) ∨
             (g.current_player = Player.Right ∧ g.edgeColor e = Color.Red)) then false
  else if ¬ (∃ sq ∈ g.get_squares_sharing_edge e, sq ∈ g.active_squares_coords) then false
  else true

/-- The reason string selection of `make_move`, lines 177-188.  Note the
`winner` field is never consulted here. -/
def failureReason (g : FragmentedSquaresGame) (e : Edge) : MoveReason :=
  if ¬ (e ∈ g.edges ∧ e ∉ g.removed) then MoveReason.edgeMissing
  else if g.edgeColor e ≠ playerColor g.current_player then MoveReason.incorrectColor
  else if ¬ (∃ sq ∈ g.get_squares_sharing_edge e, sq ∈ g.active_squares_coords) then
    MoveReason.noActiveSquares
  else MoveReason.unknownReason

/-- The squares destroyed by removing `e` (lines 198-205): the squares
sharing the edge that are currently active. -/
def destroyedBy (g : FragmentedSquaresGame) (e : Edge) : Finset Coord :=
  g.get_squares_sharing_edge e ∩ g.active_squares_coords

/-- The `move_data` dict built on lines 210-229 (its `winner` field is set
exactly when the move empties the active set). -/
def moveRecordOf (g : FragmentedSquaresGame) (e : Edge) : MoveRecord :=
  { turn := g.move_history.length + 1
    player := g.current_player
    edge_removed := e
    edge_color := g.edgeColor e
    squares_destroyed := destroyedBy g e
    active_squares_before := (g.active_squares_coords \ destroyedBy g e) ∪ destroyedBy g e
    active_squares_after := g.active_squares_coords \ destroyedBy g e
    game_over_after := decide (g.active_squares_coords \ destroyedBy g e = ∅)
    winner := if g.active_squares_coords \ destroyedBy g e = ∅
              then some g.current_player else none }

/-- The state update of a successful `make_move`, lines 194-236. -/
def applyMove (g : FragmentedSquaresGame) (e : Edge) : FragmentedSquaresGame :=
  let active2 := g.active_squares_coords \ destroyedBy g e
  let winner2 := if active2 = ∅ then some g.current_player else g.winner
  { g with
    removed := insert e g.removed
    active_squares_coords := active2
    last_move_destructions := (destroyedBy g e).card
    winner := winner2
    current_player := if winner2.isSome then g.current_player
                      else otherPlayer g.current_player
    move_history := g.move_history ++ [moveRecordOf g e] }

/-- Embeds `make_move` (lines 169-238): on an invalid move, report the computed
reason and leave the state untouched; otherwise apply the move. -/
def make_move (g : FragmentedSquaresGame) (e : Edge) :
    Option MoveReason × FragmentedSquaresGame :=
  if is_valid_move g e then (none, applyMove g e)
  else (some (failureReason g e), g)

/-- A sequence of `make_move` calls, keeping only the evolving state. -/
def runMoves (g : FragmentedSquaresGame) : List Edge → FragmentedSquaresGame
  | [] => g
  | e :: es => runMoves (make_move g e).2 es

/-- The number of successful moves in a call sequence. -/
def countSucc (g : FragmentedSquaresGame) : List Edge → Nat
  | [] => 0
  | e :: es =>
    (if (make_move g e).1 = none then 1 else 0) + countSucc (make_move g e).2 es

/-- Embeds `get_state_summary` (lines 240-247). -/
def get_state_summary (g : FragmentedSquaresGame) :
    Nat × Player × Option Player × Nat :=
  (g.active_squares_coords.card, g.current_player, g.winner, g.move_history.length)

end FragmentedSquaresGame

/-- The `simple_square` shape of line 428: `{(0, 0)}`. -/
def simple_square : Finset Coord := {((0 : Int), (0 : Int))}

/-- Turn numbers of a history suffix count up from `n` by ones. -/
def turnsFrom : Nat → List MoveRecord → Prop
  | _, [] => True
  | n, r :: rs => r.turn = n ∧ turnsFrom (n + 1) rs

/-- The records chain the active-square set from `prev` down to `active`:
each record's `active_squares_before` is the set left by its predecessor,
and the last record's `active_squares_after` is `active`. -/
def historyChain :
    Finset Coord → List MoveRecord → Finset Coord → Prop
  | prev, [], active => active = prev
  | prev, r :: rs, active =>
      r.active_squares_before = prev ∧ historyChain r.active_squares_after rs active

/-- The bookkeeping invariant on a state's move history: turn numbers count
1, 2, ... and the records chain the active set from the full shape down to
the current active set. -/
def HistoryInv (g : FragmentedSquaresGame) : Prop :=
  turnsFrom 1 g.move_history ∧
  historyChain g.all_squares_coords g.move_history g.active_squares_coords

/-- The freshly-constructed state for a shape: what `__init__` stores before
(and then via) `reset`.  `initGame shape col = some (freshGame shape col)`
whenever the shape is non-empty. -/
def freshGame (shape : Finset Coord) (col : Edge → Color) : FragmentedSquaresGame :=
  FragmentedSquaresGame.reset
    { all_squares_coords := shape
      active_squares_coords := ∅
      edges := ∅
      edgeColor := col
      removed := ∅
      current_player := Player.Left
      winner := none
      last_move_destructions := 0
      move_history := [] } col

/-- Sample state: the single-square board, every edge Blue. -/
def sampleGame : FragmentedSquaresGame := freshGame simple_square (fun _ => Color.Blue)

/-- Sample ended state: `sampleGame` after Left removes the edge below the
square, destroying it and winning. -/
def sampleEnded : FragmentedSquaresGame :=
  FragmentedSquaresGame.make_move sampleGame (((0, 0), Orient.H)) |>.2

/-- A coloring of the two-square strip `{(0,0), (0,1)}`: the top edge of
`(0,0)` is Red, everything else Blue. -/
def sampleTwoCol : Edge → Color :=
  fun e => if e = (((-1 : Int), (0 : Int)), Orient.H) then Color.Red else Color.Blue

/-- Sample state: the two-square strip under `sampleTwoCol`. -/
def sampleTwo : FragmentedSquaresGame :=
  freshGame {((0 : Int), (0 : Int)), ((0 : Int), (1 : Int))} sampleTwoCol

/-- The state of `sampleTwo` after Left removes the (Blue) left edge of `(0,0)`,
destroying `(0,0)`; the game is still running and it is Right's turn. -/
def sampleTwoAfter : FragmentedSquaresGame :=
  FragmentedSquaresGame.make_move sampleTwo (((0, -1), Orient.V)) |>.2

namespace FragmentedSquaresGame

lemma colorOk_iff (p : Player) (c : Color) :
    ((p = Player.Left ∧ c = Color.Blue) ∨ (p = Player.Right ∧ c = Color.Red)) ↔
      c = playerColor p := by
  cases p <;> cases c <;> simp [playerColor]

lemma is_valid_move_eq_true_iff (g : FragmentedSquaresGame) (e : Edge) :
    is_valid_move g e = true ↔
      g.winner = none ∧ (e ∈ g.edges ∧ e ∉ g.removed) ∧
      g.edgeColor e = playerColor g.current_player ∧
      ∃ sq ∈ g.get_squares_sharing_edge e, sq ∈ g.active_squares_coords := by
  unfold is_valid_move
  rcases hw : g.winner with _ | p
  · rw [if_neg (by simp)]
    by_cases h2 : e ∈ g.edges ∧ e ∉ g.removed
    · rw [if_neg (not_not_intro h2)]
      by_cases h3 : (g.current_player = Player.Left ∧ g.edgeColor e = Color.Blue) ∨
          (g.current_player = Player.Right ∧ g.edgeColor e = Color.Red)
      · rw [if_neg (not_not_intro h3)]
        by_cases h4 : ∃ sq ∈ g.get_squares_sharing_edge e, sq ∈ g.active_squares_coords
        · rw [if_neg (not_not_intro h4)]
          simp [h2.1, h2.2, h4, (colorOk_iff g.current_player (g.edgeColor e)).1 h3]
        · rw [if_pos h4]
          simp only [Bool.false_eq_true, false_iff]
          rintro ⟨-, -, -, hsq⟩
          exact h4 hsq
      · rw [if_pos h3]
        simp only [Bool.false_eq_true, false_iff]
        rintro ⟨-, -, hc, -⟩
        exact h3 ((colorOk_iff g.current_player (g.edgeColor e)).2 hc)
    · rw [if_pos h2]
      simp only [Bool.false_eq_true, false_iff]
      rintro ⟨-, hmem, -⟩
      exact h2 hmem
  · rw [if_pos (by simp)]
    simp only [Bool.false_eq_true, false_iff]
    rintro ⟨hwn, -⟩
    simp at hwn

lemma valid_winner_none {g : FragmentedSquaresGame} {e : Edge}
    (h : is_valid_move g e = true) : g.winner = none :=
  ((is_valid_move_eq_true_iff g e).1 h).1

lemma make_move_valid {g : FragmentedSquaresGame} {e : Edge}
    (h : is_valid_move g e = true) : make_move g e = (none, applyMove g e) := by
  simp [make_move, h]

lemma make_move_invalid {g : FragmentedSquaresGame} {e : Edge}
    (h : is_valid_move g e = false) :
    make_move g e = (some (failureReason g e), g) := by
  simp [make_move, h]

lemma make_move_fst_none_iff (g : FragmentedSquaresGame) (e : Edge) :
    (make_move g e).1 = none ↔ is_valid_move g e = true := by
  by_cases h : is_valid_move g e = true
  · simp [make_move_valid h, h]
  · have hf : is_valid_move g e = false := Bool.of_not_eq_true h
    simp [make_move_invalid hf, hf]

lemma make_move_of_winner {g : FragmentedSquaresGame} {e : Edge}
    (h : g.winner ≠ none) :
    make_move g e = (some (failureReason g e), g) := by
  apply make_move_invalid
  unfold is_valid_move
  rw [if_pos (Option.ne_none_iff_isSome.1 h)]

lemma destroyedBy_subset (g : FragmentedSquaresGame) (e : Edge) :
    destroyedBy g e ⊆ g.active_squares_coords :=
  Finset.inter_subset_right

lemma sharing_card_le_two (shape : Finset Coord) (e : Edge) :
    (squaresSharingEdge shape e).card ≤ 2 := by
  obtain ⟨⟨r, c⟩, o⟩ := e
  cases o <;>
  · refine le_trans (Finset.card_le_card Finset.inter_subset_left) ?_
    exact le_trans (Finset.card_insert_le _ _) (by simp)

lemma destroyedBy_card_le_two (g : FragmentedSquaresGame) (e : Edge) :
    (destroyedBy g e).card ≤ 2 :=
  le_trans (Finset.card_le_card Finset.inter_subset_left)
    (sharing_card_le_two g.all_squares_coords e)

lemma valid_destroyed_nonempty {g : FragmentedSquaresGame} {e : Edge}
    (h : is_valid_move g e = true) : (destroyedBy g e).Nonempty := by
  obtain ⟨-, -, -, sq, hsq, hact⟩ := (is_valid_move_eq_true_iff g e).1 h
  exact ⟨sq, Finset.mem_inter.2 ⟨hsq, hact⟩⟩

lemma record_before_eq_active (g : FragmentedSquaresGame) (e : Edge) :
    (moveRecordOf g e).active_squares_before = g.active_squares_coords :=
  Finset.sdiff_union_of_subset (destroyedBy_subset g e)

lemma make_move_active_subset (g : FragmentedSquaresGame) (e : Edge) :
    (make_move g e).2.active_squares_coords ⊆ g.active_squares_coords := by
  by_cases h : is_valid_move g e = true
  · rw [make_move_valid h]
    exact Finset.sdiff_subset
  · rw [make_move_invalid (Bool.of_not_eq_true h)]

lemma make_move_removed_subset (g : FragmentedSquaresGame) (e : Edge) :
    g.removed ⊆ (make_move g e).2.removed := by
  by_cases h : is_valid_move g e = true
  · rw [make_move_valid h]
    exact Finset.subset_insert e g.removed
  · rw [make_move_invalid (Bool.of_not_eq_true h)]

lemma make_move_edges_eq (g : FragmentedSquaresGame) (e : Edge) :
    (make_move g e).2.edges = g.edges := by
  by_cases h : is_valid_move g e = true
  · rw [make_move_valid h]; rfl
  · rw [make_move_invalid (Bool.of_not_eq_true h)]

lemma make_move_all_eq (g : FragmentedSquaresGame) (e : Edge) :
    (make_move g e).2.all_squares_coords = g.all_squares_coords := by
  by_cases h : is_valid_move g e = true
  · rw [make_move_valid h]; rfl
  · rw [make_move_invalid (Bool.of_not_eq_true h)]

lemma runMoves_all_eq (es : List Edge) :
    ∀ g : FragmentedSquaresGame,
      (runMoves g es).all_squares_coords = g.all_squares_coords := by
  induction es with
  | nil => intro g; rfl
  | cons e es ih =>
    intro g
    rw [runMoves, ih, make_move_all_eq]

lemma runMoves_active_subset (es : List Edge) :
    ∀ g : FragmentedSquaresGame,
      (runMoves g es).active_squares_coords ⊆ g.active_squares_coords := by
  induction es with
  | nil => intro g; exact subset_rfl
  | cons e es ih =>
    intro g
    exact subset_trans (ih _) (make_move_active_subset g e)

lemma runMoves_removed_subset (es : List Edge) :
    ∀ g : FragmentedSquaresGame,
      g.removed ⊆ (runMoves g es).removed := by
  induction es with
  | nil => intro g; exact subset_rfl
  | cons e es ih =>
    intro g
    exact subset_trans (make_move_removed_subset g e) (ih _)

lemma runMoves_frozen {g : FragmentedSquaresGame} (es : List Edge)
    (h : g.winner ≠ none) : runMoves g es = g := by
  induction es with
  | nil => rfl
  | cons e es ih =>
    rw [runMoves, make_move_of_winner h, ih]

lemma turnsFrom_concat (h : List MoveRecord) :
    ∀ (n : Nat) (r : MoveRecord), turnsFrom n h → r.turn = n + h.length →
      turnsFrom n (h ++ [r]) := by
  induction h with
  | nil => intro n r _ ht; exact ⟨by simpa using ht, trivial⟩
  | cons r0 rs ih =>
    intro n r hseq ht
    exact ⟨hseq.1, ih (n + 1) r hseq.2 (by simp [ht]; omega)⟩

lemma historyChain_concat (h : List MoveRecord) :
    ∀ (prev a : Finset Coord) (r : MoveRecord), historyChain prev h a →
      r.active_squares_before = a →
      historyChain prev (h ++ [r]) r.active_squares_after := by
  induction h with
  | nil =>
    intro prev a r hch hb
    exact ⟨by rw [hb, hch], rfl⟩
  | cons r0 rs ih =>
    intro prev a r hch hb
    exact ⟨hch.1, ih _ _ _ hch.2 hb⟩

lemma historyInv_reset (g : FragmentedSquaresGame) (col : Edge → Color) :
    HistoryInv (reset g col) :=
  ⟨trivial, rfl⟩

lemma historyInv_step (g : FragmentedSquaresGame) (e : Edge)
    (hInv : HistoryInv g) : HistoryInv (make_move g e).2 := by
  by_cases h : is_valid_move g e = true
  · rw [make_move_valid h]
    refine ⟨?_, ?_⟩
    · exact turnsFrom_concat g.move_history 1 (moveRecordOf g e) hInv.1 (by simp [moveRecordOf]; omega)
    · have := historyChain_concat g.move_history g.all_squares_coords
        g.active_squares_coords (moveRecordOf g e) hInv.2 (record_before_eq_active g e)
      exact this
  · rw [make_move_invalid (Bool.of_not_eq_true h)]
    exact hInv

lemma make_move_history_len (g : FragmentedSquaresGame) (e : Edge) :
    (make_move g e).2.move_history.length =
      g.move_history.length + (if (make_move g e).1 = none then 1 else 0) := by
  by_cases h : is_valid_move g e = true
  · rw [make_move_valid h]
    simp [applyMove]
  · rw [make_move_invalid (Bool.of_not_eq_true h)]
    simp

lemma runMoves_historyInv (es : List Edge) :
    ∀ g : FragmentedSquaresGame, HistoryInv g → HistoryInv (runMoves g es) := by
  induction es with
  | nil => intro g h; exact h
  | cons e es ih =>
    intro g h
    exact ih _ (historyInv_step g e h)

lemma runMoves_history_len (es : List Edge) :
    ∀ g : FragmentedSquaresGame,
      (runMoves g es).move_history.length =
        g.move_history.length + countSucc g es := by
  induction es with
  | nil => intro g; simp [runMoves, countSucc]
  | cons e es ih =>
    intro g
    rw [runMoves, countSucc, ih, make_move_history_len]
    omega

lemma countSucc_le_active_card (es : List Edge) :
    ∀ g : FragmentedSquaresGame,
      countSucc g es ≤ g.active_squares_coords.card := by
  induction es with
  | nil => intro g; simp [countSucc]
  | cons e es ih =>
    intro g
    rw [countSucc]
    by_cases h : is_valid_move g e = true
    · have hfst : (make_move g e).1 = none := (make_move_fst_none_iff g e).2 h
      rw [if_pos hfst]
      have hact : (make_move g e).2.active_squares_coords =
          g.active_squares_coords \ destroyedBy g e := by
        rw [make_move_valid h]; rfl
      have hcard := ih (make_move g e).2
      rw [hact, Finset.card_sdiff (destroyedBy_subset g e)] at hcard
      have hne : 1 ≤ (destroyedBy g e).card :=
        Finset.card_pos.2 (valid_destroyed_nonempty h)
      have hle : (destroyedBy g e).card ≤ g.active_squares_coords.card :=
        Finset.card_le_card (destroyedBy_subset g e)
      omega
    · have hf : is_valid_move g e = false := Bool.of_not_eq_true h
      have hfst : (make_move g e).1 ≠ none := by
        rw [make_move_invalid hf]; simp
      rw [if_neg hfst, make_move_invalid hf]
      simpa using ih g

/-- C1: `is_valid_move` returns true for an edge if and only if the game has
no winner yet, the edge is in the edge model with its exists flag true, the
edge's color is the fixed color of the current player (Left owns Blue, Right
owns Red), and the edge borders at least one currently-active square. -/
theorem is_valid_move_spec (g : FragmentedSquaresGame) (e : Edge) :
    is_valid_move g e = true ↔
      g.winner = none ∧
      (e ∈ g.edges ∧ e ∉ g.removed) ∧
      g.edgeColor e = playerColor g.current_player ∧
      ∃ sq ∈ g.get_squares_sharing_edge e, sq ∈ g.active_squares_coords :=
  is_valid_move_eq_true_iff g e

/-- C2: on a legal move, `make_move` succeeds, marks the edge's exists flag
false, and removes from the active set exactly `destroyedBy g e`, which is
`get_squares_sharing_edge` intersected with the active set before the move;
this set has at most 2 elements, and both the recorded `squares_destroyed`
and `last_move_destructions` equal it. -/
theorem make_move_destruction_spec (g : FragmentedSquaresGame) (e : Edge)
    (h : is_valid_move g e = true) :
    (make_move g e).1 = none ∧
    e ∈ (make_move g e).2.removed ∧
    destroyedBy g e = g.get_squares_sharing_edge e ∩ g.active_squares_coords ∧
    (make_move g e).2.active_squares_coords =
      g.active_squares_coords \ destroyedBy g e ∧
    g.active_squares_coords \ (make_move g e).2.active_squares_coords =
      destroyedBy g e ∧
    (destroyedBy g e).card ≤ 2 ∧
    (make_move g e).2.last_move_destructions = (destroyedBy g e).card ∧
    ∃ r, (make_move g e).2.move_history.getLast? = some r ∧
      r.squares_destroyed = destroyedBy g e := by
  rw [make_move_valid h]
  refine ⟨rfl, Finset.mem_insert_self e g.removed, rfl, rfl, ?_,
    destroyedBy_card_le_two g e, rfl, ?_⟩
  · show g.active_squares_coords \ (g.active_squares_coords \ destroyedBy g e) =
      destroyedBy g e
    rw [Finset.sdiff_sdiff_self_left]
    exact Finset.inter_eq_right.2 (destroyedBy_subset g e)
  · refine ⟨moveRecordOf g e, ?_, rfl⟩
    have hh : (applyMove g e).move_history =
        g.move_history ++ [moveRecordOf g e] := rfl
    rw [hh, List.getLast?_concat]

/-- Witness for C2 at the single-square board with every edge Blue. -/
theorem make_move_destruction_witness :
    is_valid_move sampleGame (((0, 0), Orient.H)) = true ∧
    (make_move sampleGame (((0, 0), Orient.H))).1 = none ∧
    (make_move sampleGame (((0, 0), Orient.H))).2.last_move_destructions =
      (destroyedBy sampleGame (((0, 0), Orient.H))).card := by
  have h := make_move_destruction_spec sampleGame (((0, 0), Orient.H)) (by decide)
  exact ⟨by decide, h.1, h.2.2.2.2.2.2.1⟩

/-- C3: the winner is set exactly at the move that empties the active set,
to the player who made that move, without advancing the current player; once
a winner is set, every `make_move` fails and leaves the state (hence the
winner) unchanged, for any further call sequence. -/
theorem win_protocol_spec (g : FragmentedSquaresGame) (e : Edge) (es : List Edge) :
    ((make_move g e).1 = none →
      g.winner = none ∧
      ((make_move g e).2.winner ≠ none ↔
        (make_move g e).2.active_squares_coords = ∅) ∧
      ((make_move g e).2.active_squares_coords = ∅ →
        (make_move g e).2.winner = some g.current_player ∧
        (make_move g e).2.current_player = g.current_player)) ∧
    (g.winner ≠ none →
      make_move g e = (some (failureReason g e), g) ∧
      runMoves g es = g) := by
  constructor
  · intro hsucc
    have hv := (make_move_fst_none_iff g e).1 hsucc
    have hw := valid_winner_none hv
    rw [make_move_valid hv]
    by_cases hemp : g.active_squares_coords \ destroyedBy g e = ∅
    · refine ⟨hw, ?_, ?_⟩ <;> simp [applyMove, hemp]
    · refine ⟨hw, ?_, ?_⟩ <;> simp [applyMove, hemp, hw]
  · intro hwin
    exact ⟨make_move_of_winner hwin, runMoves_frozen es hwin⟩

/-- Witness for C3: the winning move on the single-square board sets the
winner to the mover and freezes the player; afterwards a further call fails
and changes nothing. -/
theorem win_protocol_witness :
    (make_move sampleGame (((0, 0), Orient.H))).2.winner = some Player.Left ∧
    (make_move sampleGame (((0, 0), Orient.H))).2.current_player = Player.Left ∧
    make_move sampleEnded (((0, 0), Orient.V)) =
      (some (failureReason sampleEnded (((0, 0), Orient.V))), sampleEnded) ∧
    runMoves sampleEnded [(((0, 0), Orient.V))] = sampleEnded := by
  have h1 := (win_protocol_spec sampleGame (((0, 0), Orient.H)) []).1 (by decide)
  have h2 := (win_protocol_spec sampleEnded (((0, 0), Orient.V))
    [(((0, 0), Orient.V))]).2 (by decide)
  have h3 := h1.2.2 (by decide)
  exact ⟨h3.1, h3.2, h2.1, h2.2⟩

/-- C4: `make_move` is atomic on failure: whenever `is_valid_move` is false
it returns an error and the entire state — active squares, edge flags and
colors, current player, winner, history — is exactly the input state. -/
theorem make_move_atomic_failure (g : FragmentedSquaresGame) (e : Edge)
    (h : is_valid_move g e = false) :
    (make_move g e).2 = g ∧ (make_move g e).1 = some (failureReason g e) := by
  rw [make_move_invalid h]
  exact ⟨rfl, rfl⟩

/-- Witness for C4 at an edge unknown to the single-square board. -/
theorem make_move_atomic_failure_witness :
    is_valid_move sampleGame (((5, 5), Orient.H)) = false ∧
    (make_move sampleGame (((5, 5), Orient.H))).2 = sampleGame := by
  have h := make_move_atomic_failure sampleGame (((5, 5), Orient.H)) (by decide)
  exact ⟨by decide, h.1⟩

/-- C5 counterexample: the game-already-over cause has no distinct reason.
In the finished game `sampleEnded`, the failure on a still-present,
correctly-colored edge is reported as `noActiveSquares` — the very reason
produced in the running game `sampleTwoAfter` for an edge that merely
borders no active square — so a caller cannot distinguish the two causes,
and no move after game end is ever reported with a game-already-over
reason. -/
theorem move_error_reason_counterexample :
    sampleEnded.winner ≠ none ∧
    sampleEnded.edgeColor (((0, 0), Orient.V)) =
      playerColor sampleEnded.current_player ∧
    (((0, 0), Orient.V) : Edge) ∈ sampleEnded.edges ∧
    (((0, 0), Orient.V) : Edge) ∉ sampleEnded.removed ∧
    (make_move sampleEnded (((0, 0), Orient.V))).1 =
      some MoveReason.noActiveSquares ∧
    sampleTwoAfter.winner = none ∧
    (make_move sampleTwoAfter ((((-1 : Int), 0), Orient.H))).1 =
      some MoveReason.noActiveSquares := by
  decide

/-- C5 (amended): every failing `make_move` carries a reason, and the three
causes edge-unknown/already-removed, wrong color, and borders-no-active are
each reported distinctly, checked in that order with the winner ignored; a
failure in which all three sub-checks pass — possible only when the game is
already over — is reported with the generic `unknownReason`, there being no
dedicated game-already-over reason. -/
theorem move_error_reason_spec (g : FragmentedSquaresGame) (e : Edge)
    (h : is_valid_move g e = false) :
    (make_move g e).1 = some (failureReason g e) ∧
    (failureReason g e = MoveReason.edgeMissing ↔
      ¬ (e ∈ g.edges ∧ e ∉ g.removed)) ∧
    (failureReason g e = MoveReason.incorrectColor ↔
      (e ∈ g.edges ∧ e ∉ g.removed) ∧
      g.edgeColor e ≠ playerColor g.current_player) ∧
    (failureReason g e = MoveReason.noActiveSquares ↔
      (e ∈ g.edges ∧ e ∉ g.removed) ∧
      g.edgeColor e = playerColor g.current_player ∧
      ¬ ∃ sq ∈ g.get_squares_sharing_edge e, sq ∈ g.active_squares_coords) ∧
    (failureReason g e = MoveReason.unknownReason → g.winner ≠ none) := by
  refine ⟨by rw [make_move_invalid h], ?_⟩
  by_cases h1 : e ∈ g.edges ∧ e ∉ g.removed
  · by_cases h2 : g.edgeColor e = playerColor g.current_player
    · by_cases h3 : ∃ sq ∈ g.get_squares_sharing_edge e, sq ∈ g.active_squares_coords
      · have hr : failureReason g e = MoveReason.unknownReason := by
          unfold failureReason
          rw [if_neg (not_not_intro h1), if_neg (not_not_intro h2),
            if_neg (not_not_intro h3)]
        refine ⟨by simp [hr, h1], by simp [hr, h2], by simp [hr, h3], ?_⟩
        intro _ hwn
        have hv := (is_valid_move_eq_true_iff g e).2 ⟨hwn, h1, h2, h3⟩
        rw [h] at hv
        exact absurd hv (by decide)
      · have hr : failureReason g e = MoveReason.noActiveSquares := by
          unfold failureReason
          rw [if_neg (not_not_intro h1), if_neg (not_not_intro h2), if_pos h3]
        exact ⟨by simp [hr, h1], by simp [hr, h2], by simp [hr, h1, h2, h3],
          by simp [hr]⟩
    · have hr : failureReason g e = MoveReason.incorrectColor := by
        unfold failureReason
        rw [if_neg (not_not_intro h1), if_pos h2]
      exact ⟨by simp [hr, h1], by simp [hr, h1, h2], by simp [hr, h2],
        by simp [hr]⟩
  · have hr : failureReason g e = MoveReason.edgeMissing := by
      unfold failureReason
      rw [if_pos h1]
    exact ⟨by simp [hr, h1], by simp [hr, h1], by simp [hr, h1], by simp [hr]⟩

/-- Witness for the amended C5 at an edge unknown to the single-square
board. -/
theorem move_error_reason_witness :
    (make_move sampleGame (((5, 5), Orient.H))).1 =
      some (failureReason sampleGame (((5, 5), Orient.H))) ∧
    failureReason sampleGame (((5, 5), Orient.H)) = MoveReason.edgeMissing := by
  have h := move_error_reason_spec sampleGame (((5, 5), Orient.H)) (by decide)
  exact ⟨h.1, h.2.1.mpr (by decide)⟩

/-- C6: after any call sequence with exactly `countSucc` successful moves
since construction/reset, the history has exactly that many records, their
turn numbers are 1, 2, ... in order with no gaps, each record's
`active_squares_before` and `active_squares_after` are the true active sets
around that move (they chain from the full shape), and the last record's
`active_squares_after` is the live active set. -/
theorem history_integrity (g : FragmentedSquaresGame) (col : Edge → Color)
    (es : List Edge) :
    (runMoves (reset g col) es).move_history.length =
      countSucc (reset g col) es ∧
    turnsFrom 1 (runMoves (reset g col) es).move_history ∧
    historyChain g.all_squares_coords
      (runMoves (reset g col) es).move_history
      (runMoves (reset g col) es).active_squares_coords := by
  have hInv := runMoves_historyInv es (reset g col) (historyInv_reset g col)
  refine ⟨?_, hInv.1, ?_⟩
  · rw [runMoves_history_len]
    simp [reset]
  · have hall : (runMoves (reset g col) es).all_squares_coords =
        g.all_squares_coords := by
      rw [runMoves_all_eq]
      rfl
    rw [← hall]
    exact hInv.2

/-- C7: across any call sequence the active-square set is non-increasing and
stays inside the original shape (which never changes), and an edge's exists
flag only transitions from true to false: the removed set only grows and the
edge model's key set is fixed. -/
theorem monotonic_destruction (g : FragmentedSquaresGame) (e : Edge)
    (es : List Edge) :
    (make_move g e).2.active_squares_coords ⊆ g.active_squares_coords ∧
    g.removed ⊆ (make_move g e).2.removed ∧
    (make_move g e).2.edges = g.edges ∧
    (make_move g e).2.all_squares_coords = g.all_squares_coords ∧
    (runMoves g es).active_squares_coords ⊆ g.active_squares_coords ∧
    g.removed ⊆ (runMoves g es).removed ∧
    (g.active_squares_coords ⊆ g.all_squares_coords →
      (runMoves g es).active_squares_coords ⊆
        (runMoves g es).all_squares_coords) := by
  refine ⟨make_move_active_subset g e, make_move_removed_subset g e,
    make_move_edges_eq g e, make_move_all_eq g e, runMoves_active_subset es g,
    runMoves_removed_subset es g, ?_⟩
  intro hsub
  rw [runMoves_all_eq]
  exact subset_trans (runMoves_active_subset es g) hsub

/-- Witness for C7 on the single-square board. -/
theorem monotonic_destruction_witness :
    (runMoves sampleGame [(((0, 0), Orient.H))]).active_squares_coords ⊆
      (runMoves sampleGame [(((0, 0), Orient.H))]).all_squares_coords ∧
    sampleGame.removed ⊆
      (runMoves sampleGame [(((0, 0), Orient.H))]).removed := by
  have h := monotonic_destruction sampleGame (((0, 0), Orient.H))
    [(((0, 0), Orient.H))]
  exact ⟨h.2.2.2.2.2.2 (by decide), h.2.2.2.2.2.1⟩

/-- C8: for the shape `{(0,0)}`, construction succeeds and creates exactly 4
edges, each bordering the square `(0,0)`; any successful `make_move`
destroys the square, immediately sets the winner to the mover, and ends with
exactly 1 move in the history. -/
theorem single_square_scenario (col : Edge → Color) (e : Edge) :
    initGame simple_square col = some (freshGame simple_square col) ∧
    (freshGame simple_square col).edges.card = 4 ∧
    (∀ e2 ∈ (freshGame simple_square col).edges,
      (freshGame simple_square col).get_squares_sharing_edge e2 = simple_square) ∧
    ((make_move (freshGame simple_square col) e).1 = none →
      (make_move (freshGame simple_square col) e).2.active_squares_coords = ∅ ∧
      (make_move (freshGame simple_square col) e).2.winner =
        some (freshGame simple_square col).current_player ∧
      (make_move (freshGame simple_square col) e).2.move_history.length = 1) := by
  refine ⟨by rw [initGame, if_neg (by decide)]; rfl, ?_, ?_, ?_⟩
  · show (initialize_edges simple_square).card = 4
    decide
  · show ∀ e2 ∈ initialize_edges simple_square,
      squaresSharingEdge simple_square e2 = simple_square
    decide
  intro hsucc
  have hv := (make_move_fst_none_iff _ _).1 hsucc
  have hD : destroyedBy (freshGame simple_square col) e = simple_square := by
    have hne := valid_destroyed_nonempty hv
    have hsub : destroyedBy (freshGame simple_square col) e ⊆ simple_square :=
      destroyedBy_subset _ e
    rcases Finset.subset_singleton_iff.1 hsub with h0 | h1
    · rw [h0] at hne
      exact absurd hne (by simp)
    · exact h1
  have hemp : (freshGame simple_square col).active_squares_coords \
      destroyedBy (freshGame simple_square col) e = ∅ := by
    rw [hD]
    exact Finset.sdiff_self _
  rw [make_move_valid hv]
  refine ⟨hemp, ?_, ?_⟩
  · show (if (freshGame simple_square col).active_squares_coords \
        destroyedBy (freshGame simple_square col) e = ∅
      then some (freshGame simple_square col).current_player
      else (freshGame simple_square col).winner) =
      some (freshGame simple_square col).current_player
    rw [if_pos hemp]
  · show ((freshGame simple_square col).move_history ++
      [moveRecordOf (freshGame simple_square col) e]).length = 1
    rfl

/-- Witness for C8: removing the bottom edge when every edge is Blue. -/
theorem single_square_witness :
    (make_move (freshGame simple_square (fun _ => Color.Blue))
      (((0, 0), Orient.H))).2.winner =
      some (freshGame simple_square (fun _ => Color.Blue)).current_player ∧
    (make_move (freshGame simple_square (fun _ => Color.Blue))
      (((0, 0), Orient.H))).2.move_history.length = 1 := by
  have h := (single_square_scenario (fun _ => Color.Blue)
    (((0, 0), Orient.H))).2.2.2 (by decide)
  exact ⟨h.2.1, h.2.2⟩

/-- C9: `reset` is idempotent on the observable state: after any prior
moves and resets (whatever the outcome), a `reset` leaves the active set
equal to the full original shape (so the active count equals the shape's
size), the winner unset, Left to move, and the history empty. -/
theorem reset_idempotent (g : FragmentedSquaresGame) (col col2 : Edge → Color)
    (es : List Edge) :
    (reset g col).all_squares_coords = g.all_squares_coords ∧
    (reset (runMoves (reset g col) es) col2).active_squares_coords =
      g.all_squares_coords ∧
    (reset (runMoves (reset g col) es) col2).active_squares_coords.card =
      g.all_squares_coords.card ∧
    (reset (runMoves (reset g col) es) col2).winner = none ∧
    (reset (runMoves (reset g col) es) col2).current_player = Player.Left ∧
    (reset (runMoves (reset g col) es) col2).move_history = [] := by
  have hall : (runMoves (reset g col) es).all_squares_coords =
      g.all_squares_coords := by
    rw [runMoves_all_eq]
    rfl
  exact ⟨rfl, hall, congrArg Finset.card hall, rfl, rfl, rfl⟩

/-- C10 (implicit): every successful `make_move` destroys at least one
square — the destroyed set is non-empty, so the destruction count is 1 or 2,
never 0 — and consequently a shape of `N` squares admits at most `N`
successful moves in any call sequence from construction/reset. -/
theorem destruction_bounds (g : FragmentedSquaresGame) (e : Edge)
    (col : Edge → Color) (es : List Edge) :
    ((make_move g e).1 = none →
      (destroyedBy g e).Nonempty ∧
      1 ≤ (make_move g e).2.last_move_destructions ∧
      (make_move g e).2.last_move_destructions ≤ 2) ∧
    countSucc (reset g col) es ≤ g.all_squares_coords.card := by
  constructor
  · intro hs
    have hv := (make_move_fst_none_iff g e).1 hs
    have hne := valid_destroyed_nonempty hv
    rw [make_move_valid hv]
    refine ⟨hne, ?_, ?_⟩
    · show 1 ≤ (destroyedBy g e).card
      exact Finset.card_pos.2 hne
    · show (destroyedBy g e).card ≤ 2
      exact destroyedBy_card_le_two g e
  · have h := countSucc_le_active_card es (reset g col)
    exact h

/-- Witness for C10: the winning move on the single-square board destroys
exactly one square, and no sequence exceeds the shape's size in successes. -/
theorem destruction_bounds_witness :
    (destroyedBy sampleGame (((0, 0), Orient.H))).Nonempty ∧
    1 ≤ (make_move sampleGame (((0, 0), Orient.H))).2.last_move_destructions ∧
    (make_move sampleGame (((0, 0), Orient.H))).2.last_move_destructions ≤ 2 := by
  exact (destruction_bounds sampleGame (((0, 0), Orient.H))
    (fun _ => Color.Blue) []).1 (by decide)

end FragmentedSquaresGame

end FS
